import Mathlib

set_option maxHeartbeats 4000000
set_option maxRecDepth 100000

/-!
Shallow embedding of the market engine contract of the Linera Arcade hub
repository (files src/contracts/market_engine/src/state.rs,
src/contracts/market_engine/src/contract.rs and
src/contracts/market_engine/src/lib.rs).

Modelling conventions.
* Rust u64 values are Nat.  Saturating subtraction on u64 is exactly Nat
  subtraction.  Plain u64 addition wraps in release builds and is modelled by
  u64add, an addition followed by reduction modulo 2 to the 64.  The cast of a
  u128 quotient to u64 (expression written as u64 in the source) is modelled by
  an explicit reduction modulo 2 to the 64.
* The numeric fields of Position are stored as decimal strings in the source
  and are read back with parse followed by unwrap_or(0).  Every write of such
  a field is to_string of a non negative i64, so the values that ever reach
  storage are below 2 to the 63 and both the u64 parse and the i64 parse are
  the identity on them; the fields are therefore modelled directly as Nat.
* MapView containers are modelled as functions into Option, RegisterView
  containers as plain fields.
* A Rust panic inside execute_operation aborts the transaction before the
  state is stored, so a panicking operation is modelled as Except.error and
  carries no successor state: an erroring operation changes nothing.  The
  divide by zero panic that the sell quote raises when the wrapped pool plus
  shares is zero is the none value of sell_proceeds, surfaced as an error.
* i64 arithmetic wraps in release builds: the share accumulation of
  update_position applies i64wrap, the two complement reduction into the i64
  range, before the max(0) clamp.
* The operation arguments max_cost and shares arrive as decimal strings and
  are parsed with parse followed by expect (panic on a malformed string); the
  model takes the already parsed Nat.
-/

namespace MarketEngine

/-- Modulus of 64 bit unsigned machine integers. -/
def U64MOD : Nat := 18446744073709551616

/-- Largest 64 bit unsigned integer, the Rust constant written u64 MAX. -/
def U64MAX : Nat := 18446744073709551615

/-- Wrapping 64 bit addition, the release build semantics of Rust + on u64. -/
def u64add (a b : Nat) : Nat := (a + b) % U64MOD

/-- The Rust cast expression of a u64 value to i64 (two complement wrap). -/
def i64_of_u64 (n : Nat) : Int :=
  if n < 9223372036854775808 then (n : Int) else (n : Int) - (U64MOD : Int)

/-- Two complement wrap of an Int into the i64 range, the release build
semantics of Rust + on i64. -/
def i64wrap (x : Int) : Int :=
  (x + 9223372036854775808) % 18446744073709551616 - 9223372036854775808

/-- The INITIAL LIQUIDITY constant of state.rs (100 tokens per side). -/
def INITIAL_LIQUIDITY : Nat := 100000000

/-- Outcome enum of lib.rs. -/
inductive Outcome where
  | Yes
  | No
deriving DecidableEq

/-- The string produced by the Rust debug formatting of an Outcome value. -/
def outcomeName : Outcome → String
  | Outcome.Yes => "Yes"
  | Outcome.No => "No"

/-- Position struct of lib.rs; numeric fields modelled as Nat, see header. -/
structure Position where
  owner : String
  yes_shares : Nat
  no_shares : Nat
  total_invested : Nat
deriving DecidableEq

/-- Resolution struct of lib.rs. -/
structure Resolution where
  resolved_at : Nat
  winning_outcome : String
  resolver : String
deriving DecidableEq

/-- Trade struct of lib.rs.  The shares field is stored as a decimal string,
to_string of the count for a buy and the count with a minus sign in front for
a sell; it is modelled as the corresponding Int. -/
structure Trade where
  trade_id : Nat
  trader : String
  outcome : String
  shares : Int
  cost : Nat
  timestamp : Nat
deriving DecidableEq

/-- MarketEngineState of state.rs. -/
structure MarketEngineState where
  yes_pool : Nat
  no_pool : Nat
  total_volume : Nat
  positions : String → Option Position
  resolution : Option Resolution
  next_trade_id : Nat
  trades : Nat → Option Trade

/-- The pair (pool, other pool) selected by the outcome match that opens
calculate_buy_cost and calculate_sell_proceeds in state.rs. -/
def tradedPools (s : MarketEngineState) (outcome : Outcome) : Nat × Nat :=
  match outcome with
  | Outcome.Yes => (s.yes_pool, s.no_pool)
  | Outcome.No => (s.no_pool, s.yes_pool)

/-- Body of calculate_buy_cost of state.rs at the level of the selected pool
pair: k is the 128 bit product, new_pool the saturating difference, a zero
new_pool yields the sentinel u64 MAX, otherwise the floor quotient is cast
down to u64 and the old other pool saturating subtracted. -/
def buy_cost (pool other_pool shares : Nat) : Nat :=
  let k := pool * other_pool
  let new_pool := pool - shares
  if new_pool = 0 then U64MAX
  else (k / new_pool % U64MOD) - other_pool

/-- Body of calculate_sell_proceeds of state.rs at the level of the selected
pool pair: new_pool is the wrapping u64 sum, the floor quotient is cast down
to u64 and saturating subtracted from the other pool.  When the wrapped
new_pool is exactly zero the Rust division k / new_pool panics with a divide
by zero; that aborted path is the none value here. -/
def sell_proceeds (pool other_pool shares : Nat) : Option Nat :=
  let k := pool * other_pool
  let new_pool := (pool + shares) % U64MOD
  if new_pool = 0 then none
  else some (other_pool - (k / new_pool % U64MOD))

/-- calculate_buy_cost of state.rs. -/
def MarketEngineState.calculate_buy_cost (s : MarketEngineState)
    (outcome : Outcome) (shares : Nat) : Nat :=
  buy_cost (tradedPools s outcome).1 (tradedPools s outcome).2 shares

/-- calculate_sell_proceeds of state.rs (none is the divide by zero panic
inside the quote). -/
def MarketEngineState.calculate_sell_proceeds (s : MarketEngineState)
    (outcome : Outcome) (shares : Nat) : Option Nat :=
  sell_proceeds (tradedPools s outcome).1 (tradedPools s outcome).2 shares

/-- get_position of state.rs: the stored position or the zero default. -/
def MarketEngineState.get_position (s : MarketEngineState) (owner : String) :
    Position :=
  (s.positions owner).getD
    { owner := owner, yes_shares := 0, no_shares := 0, total_invested := 0 }

/-- update_position of state.rs: the stored count plus share_delta is a
wrapping i64 sum (release semantics), then clamped at zero by the Rust
max(0); Int.toNat is exactly that clamp.  total_invested grows by cost_delta
on a positive delta and saturating shrinks by it otherwise. -/
def MarketEngineState.update_position (s : MarketEngineState) (owner : String)
    (outcome : Outcome) (share_delta : Int) (cost_delta : Nat) :
    MarketEngineState :=
  let pos := s.get_position owner
  let pos1 := match outcome with
    | Outcome.Yes =>
        { pos with yes_shares :=
            (i64wrap ((pos.yes_shares : Int) + share_delta)).toNat }
    | Outcome.No =>
        { pos with no_shares :=
            (i64wrap ((pos.no_shares : Int) + share_delta)).toNat }
  let invested := if 0 < share_delta then u64add pos1.total_invested cost_delta
    else pos1.total_invested - cost_delta
  let pos2 := { pos1 with total_invested := invested }
  { s with positions := fun k => if k = owner then some pos2 else s.positions k }

/-- buy of state.rs.  The Rust function returns a Result whose error can only
arise from the storage layer, which the model does not fail; it is therefore
total here and returns the charged cost together with the new state. -/
def MarketEngineState.buy (s : MarketEngineState) (owner : String)
    (outcome : Outcome) (shares : Nat) : Nat × MarketEngineState :=
  let cost := s.calculate_buy_cost outcome shares
  let s1 := match outcome with
    | Outcome.Yes =>
        { s with yes_pool := s.yes_pool - shares, no_pool := u64add s.no_pool cost }
    | Outcome.No =>
        { s with yes_pool := u64add s.yes_pool cost, no_pool := s.no_pool - shares }
  let s2 := s1.update_position owner outcome (i64_of_u64 shares) cost
  (cost, { s2 with total_volume := u64add s2.total_volume cost })

/-- sell of state.rs: the proceeds are quoted first, so a divide by zero
panic inside the quote (wrapped pool plus shares equal to zero) aborts before
anything else; then the holding check, and an insufficient holding aborts
before any mutation. -/
def MarketEngineState.sell (s : MarketEngineState) (owner : String)
    (outcome : Outcome) (shares : Nat) :
    Except String (Nat × MarketEngineState) :=
  match s.calculate_sell_proceeds outcome shares with
  | none => Except.error "attempt to divide by zero"
  | some proceeds =>
    let position := s.get_position owner
    let current_shares := match outcome with
      | Outcome.Yes => position.yes_shares
      | Outcome.No => position.no_shares
    if current_shares < shares then Except.error "Insufficient shares"
    else
      let s1 := match outcome with
        | Outcome.Yes =>
            { s with yes_pool := u64add s.yes_pool shares, no_pool := s.no_pool - proceeds }
        | Outcome.No =>
            { s with yes_pool := s.yes_pool - proceeds, no_pool := u64add s.no_pool shares }
      let s2 := s1.update_position owner outcome (-(i64_of_u64 shares)) proceeds
      Except.ok (proceeds, s2)

/-- get_next_trade_id of state.rs: returns the current id and increments. -/
def MarketEngineState.get_next_trade_id (s : MarketEngineState) :
    Nat × MarketEngineState :=
  (s.next_trade_id, { s with next_trade_id := u64add s.next_trade_id 1 })

/-- record_trade of state.rs. -/
def MarketEngineState.record_trade (s : MarketEngineState) (t : Trade) :
    MarketEngineState :=
  { s with trades := fun k => if k = t.trade_id then some t else s.trades k }

/-- init_pools of state.rs. -/
def MarketEngineState.init_pools (s : MarketEngineState) : MarketEngineState :=
  { s with yes_pool := INITIAL_LIQUIDITY, no_pool := INITIAL_LIQUIDITY,
           total_volume := 0, next_trade_id := 1 }

/-- The freshly loaded view state before instantiation: registers default to
zero and none, maps are empty. -/
def blank_state : MarketEngineState :=
  { yes_pool := 0, no_pool := 0, total_volume := 0, positions := fun _ => none,
    resolution := none, next_trade_id := 0, trades := fun _ => none }

/-- The state produced by the instantiate entry point of contract.rs. -/
def initial_state : MarketEngineState := blank_state.init_pools

/-- Operation enum of lib.rs, with the decimal string arguments of Buy and
Sell already parsed to their u64 values. -/
inductive Operation where
  | Buy (outcome : Outcome) (max_cost : Nat)
  | Sell (outcome : Outcome) (shares : Nat)
  | Resolve (winning_outcome : String)
  | Claim

/-- The affordability loop of the Buy arm of execute_operation in
contract.rs, entered with shares = 1: while the quoted cost stays within
max_cost the count grows; the first unaffordable count makes the loop give
back the previous count; once the count has passed 1000000 with an affordable
cost the loop stops at that count. -/
def buy_share_search (s : MarketEngineState) (outcome : Outcome)
    (max_cost : Nat) (shares : Nat) : Nat :=
  if max_cost < s.calculate_buy_cost outcome shares then shares - 1
  else if 1000000 < shares then shares
  else buy_share_search s outcome max_cost (shares + 1)
termination_by 1000001 - shares
decreasing_by simp_wf; omega

/-- The default Position produced by unwrap_or_default in the Claim arm: all
string fields empty, so every numeric parse falls back to zero. -/
def defaultPosition : Position :=
  { owner := "", yes_shares := 0, no_shares := 0, total_invested := 0 }

/-- execute_operation of contract.rs.  owner is the authenticated signer and
timestamp the system time in microseconds, both supplied by the runtime.  The
resolution gate panics on any operation other than Claim once a resolution is
stored.  Buy searches for the affordable share count, returns the string 0
without mutation when nothing is affordable, and otherwise buys and records a
trade; Sell propagates the insufficient shares panic; Resolve stores the
resolution record unconditionally; Claim pays out against the stored
resolution and removes the position of the caller. -/
def execute_operation (s : MarketEngineState) (owner : String)
    (timestamp : Nat) (op : Operation) :
    Except String (String × MarketEngineState) :=
  let gate : Bool := s.resolution.isSome &&
    (match op with | Operation.Claim => false | _ => true)
  if gate then Except.error "Market is resolved, only claims allowed"
  else
    match op with
    | Operation.Buy outcome max_cost =>
        let shares := buy_share_search s outcome max_cost 1
        if shares = 0 then Except.ok ("0", s)
        else
          let br := s.buy owner outcome shares
          let tid := br.2.get_next_trade_id
          let s3 := tid.2.record_trade
            { trade_id := tid.1, trader := owner, outcome := outcomeName outcome,
              shares := (shares : Int), cost := br.1, timestamp := timestamp }
          Except.ok (Nat.repr shares, s3)
    | Operation.Sell outcome shares =>
        match s.sell owner outcome shares with
        | Except.error e => Except.error e
        | Except.ok pr =>
            let tid := pr.2.get_next_trade_id
            let s3 := tid.2.record_trade
              { trade_id := tid.1, trader := owner, outcome := outcomeName outcome,
                shares := -(shares : Int), cost := pr.1, timestamp := timestamp }
            Except.ok (Nat.repr pr.1, s3)
    | Operation.Resolve winning_outcome =>
        Except.ok ("Resolved",
          { s with resolution := some (
              { resolved_at := timestamp, winning_outcome := winning_outcome,
                resolver := owner }) })
    | Operation.Claim =>
        match s.resolution with
        | none => Except.error "Market not resolved"
        | some resolution =>
            let position := (s.positions owner).getD defaultPosition
            let payout :=
              if resolution.winning_outcome = "Yes" then position.yes_shares
              else if resolution.winning_outcome = "No" then position.no_shares
              else u64add position.yes_shares position.no_shares
            Except.ok (Nat.repr payout,
              { s with positions := fun k => if k = owner then none else s.positions k })

/-- The states reachable from instantiation through successful operations. -/
inductive Reachable : MarketEngineState → Prop where
  | init : Reachable initial_state
  | step : ∀ s owner ts op resp s2, Reachable s →
      execute_operation s owner ts op = Except.ok (resp, s2) → Reachable s2

/-- The state built by the non zero branch of the Buy arm of
execute_operation: the state level buy followed by drawing a trade id and
recording the trade. -/
def buyRecordedState (s : MarketEngineState) (owner : String) (ts : Nat)
    (outc : Outcome) (shares : Nat) : MarketEngineState :=
  let br := s.buy owner outc shares
  let tid := br.2.get_next_trade_id
  tid.2.record_trade
    { trade_id := tid.1, trader := owner, outcome := outcomeName outc,
      shares := (shares : Int), cost := br.1, timestamp := ts }

/-- The state after the Claim arm removed the position of the caller. -/
def removePos (s : MarketEngineState) (owner : String) : MarketEngineState :=
  { s with positions := fun k => if k = owner then none else s.positions k }

/-- Numeric payload of a sell result (zero on error). -/
def proceedsOf : Except String (Nat × MarketEngineState) → Nat
  | Except.ok pr => pr.1
  | Except.error _ => 0

/-- Response payload of an operation result (the error text on error). -/
def responseOf : Except String (String × MarketEngineState) → String
  | Except.ok pr => pr.1
  | Except.error e => e

/-- One Buy of outcome Yes with max_cost u64 MAX by trader t at time 0
(the state it produces; such a call always succeeds on an open market and
always fills 1000001 shares, see below). -/
def buyMaxStep (s : MarketEngineState) : MarketEngineState :=
  buyRecordedState s "t" 0 Outcome.Yes 1000001

/-- Iterate buyMaxStep k times.  Written as a bare Nat.rec so that the
successor unfolding is a plain iota reduction. -/
def iterBuyMax (k : Nat) (s : MarketEngineState) : MarketEngineState :=
  Nat.rec (motive := fun _ => MarketEngineState) s
    (fun _ prev => buyMaxStep prev) k

/-- A resolved market with a stored position, used to exercise the claim
path: resolution Yes, alice holds 500 yes shares and 200 no shares. -/
def sampleResolvedYes : MarketEngineState :=
  { initial_state with
    resolution := some (
      { resolved_at := 5, winning_outcome := "Yes", resolver := "oracle" }),
    positions := fun k => if k = "alice" then some (
      { owner := "alice", yes_shares := 500, no_shares := 200,
        total_invested := 0 }) else none }

/-- An open market in which alice holds 300 yes shares and 400 no shares. -/
def sampleOpenPositions : MarketEngineState :=
  { initial_state with
    positions := fun k => if k = "alice" then some (
      { owner := "alice", yes_shares := 300, no_shares := 400,
        total_invested := 0 }) else none }

/-! Arithmetic facts about the two pricing functions. -/

lemma u64mod_pos : 0 < U64MOD := by decide

lemma u64max_succ : U64MAX + 1 = U64MOD := by decide

lemma u64add_eq_of_lt {a b : Nat} (h : a + b < U64MOD) : u64add a b = a + b := by
  simp [u64add, Nat.mod_eq_of_lt h]

lemma buy_cost_le_u64max (pool other shares : Nat) :
    buy_cost pool other shares ≤ U64MAX := by
  simp only [buy_cost]
  by_cases h : pool - shares = 0
  · rw [if_pos h]
  · rw [if_neg h]
    have h2 : pool * other / (pool - shares) % U64MOD < U64MOD :=
      Nat.mod_lt _ u64mod_pos
    have h3 := u64max_succ
    omega

/-- Exact form of buy_cost below the sentinel when the 128 bit product fits a
u64 (so the cast back to u64 truncates nothing). -/
lemma buy_cost_spec {pool other shares : Nat} (hs : shares < pool)
    (hk : pool * other < U64MOD) :
    buy_cost pool other shares = pool * other / (pool - shares) - other ∧
    other ≤ pool * other / (pool - shares) := by
  have hnp : 0 < pool - shares := by omega
  have hmod : pool * other / (pool - shares) % U64MOD
      = pool * other / (pool - shares) :=
    Nat.mod_eq_of_lt (lt_of_le_of_lt (Nat.div_le_self _ _) hk)
  refine ⟨?_, ?_⟩
  · simp only [buy_cost]
    rw [if_neg (by omega), hmod]
  · refine (Nat.le_div_iff_mul_le hnp).mpr ?_
    calc other * (pool - shares) ≤ other * pool :=
          Nat.mul_le_mul_left _ (Nat.sub_le _ _)
      _ = pool * other := Nat.mul_comm _ _

/-- The product of the two pools right after a buy: the old product shrinks by
exactly the remainder of the one floor division in the quote. -/
lemma buy_product {pool other shares : Nat} (hs : shares < pool)
    (hk : pool * other < U64MOD) :
    (pool - shares) * u64add other (buy_cost pool other shares)
      = pool * other - pool * other % (pool - shares) := by
  obtain ⟨he, hle⟩ := buy_cost_spec hs hk
  have hdle : pool * other / (pool - shares) < U64MOD :=
    lt_of_le_of_lt (Nat.div_le_self _ _) hk
  have hsum : other + buy_cost pool other shares
      = pool * other / (pool - shares) := by omega
  rw [u64add_eq_of_lt (by omega), hsum]
  have hdm := Nat.div_add_mod (pool * other) (pool - shares)
  omega

/-- The pool product never increases across a buy, with no bound on the
fill: when the fill reaches the whole pool the traded pool becomes zero and
so does the product. -/
lemma buy_product_le {p o n : Nat} (hk : p * o < U64MOD) :
    (p - n) * u64add o (buy_cost p o n) ≤ p * o := by
  by_cases h : p - n = 0
  · rw [h, Nat.zero_mul]
    exact Nat.zero_le _
  · have hlt : n < p := by omega
    have hprod := buy_product hlt hk
    have hle : p * o % (p - n) ≤ p * o := Nat.mod_le _ _
    omega

/-- Exact form of sell_proceeds when nothing wraps: the quote is some value,
namely the old other pool minus the floor quotient. -/
lemma sell_spec {pool other shares : Nat} (hp : 0 < pool)
    (hk : pool * other < U64MOD) (hpn : pool + shares < U64MOD) :
    sell_proceeds pool other shares
      = some (other - pool * other / (pool + shares)) ∧
    pool * other / (pool + shares) ≤ other := by
  have h1 : (pool + shares) % U64MOD = pool + shares := Nat.mod_eq_of_lt hpn
  have h2 : pool * other / (pool + shares) < U64MOD :=
    lt_of_le_of_lt (Nat.div_le_self _ _) hk
  refine ⟨?_, ?_⟩
  · simp only [sell_proceeds]
    rw [h1, if_neg (by omega), Nat.mod_eq_of_lt h2]
  · calc pool * other / (pool + shares) ≤ pool * other / pool :=
          Nat.div_le_div_left (Nat.le_add_right _ _) hp
      _ = other := by rw [Nat.mul_comm]; exact Nat.mul_div_cancel _ hp

/-- The product of the two pools right after a sell: the old product shrinks
by exactly the remainder of the one floor division in the quote. -/
lemma sell_product {pool other shares : Nat} (hp : 0 < pool)
    (hk : pool * other < U64MOD) (hpn : pool + shares < U64MOD) :
    u64add pool shares * (pool * other / (pool + shares))
      = pool * other - pool * other % (pool + shares) := by
  rw [u64add_eq_of_lt hpn]
  have hdm := Nat.div_add_mod (pool * other) (pool + shares)
  omega

/-- buy_cost is monotone (not strictly) in the share count. -/
lemma buy_cost_mono {pool other : Nat} (hk : pool * other < U64MOD)
    {n m : Nat} (hnm : n ≤ m) (hm : m < pool) :
    buy_cost pool other n ≤ buy_cost pool other m := by
  have h1 : 0 < pool - m := by omega
  have hd : pool * other / (pool - n) ≤ pool * other / (pool - m) :=
    Nat.div_le_div_left (by omega) h1
  rw [(buy_cost_spec (by omega) hk).1, (buy_cost_spec hm hk).1]
  omega

/-- sell_proceeds is monotone (not strictly) in the share count, as long as
the wrapping pool plus shares sum does not wrap. -/
lemma sell_proceeds_mono {pool other : Nat} (hp : 0 < pool)
    (hk : pool * other < U64MOD) {n m : Nat} (hnm : n ≤ m)
    (hm : pool + m < U64MOD) :
    (sell_proceeds pool other n).getD 0
      ≤ (sell_proceeds pool other m).getD 0 := by
  have hd : pool * other / (pool + m) ≤ pool * other / (pool + n) :=
    Nat.div_le_div_left (by omega) (by omega)
  rw [(sell_spec hp hk (by omega)).1, (sell_spec hp hk hm).1]
  simp only [Option.getD_some]
  omega

/-- When a sell quote exists it never exceeds the opposite pool (the
saturating subtraction); an aborted quote counts as zero here. -/
lemma sell_proceeds_le_other (pool other shares : Nat) :
    (sell_proceeds pool other shares).getD 0 ≤ other := by
  simp only [sell_proceeds]
  split
  · simp
  · simp only [Option.getD_some]
    exact Nat.sub_le _ _

/-! Facts about the affordability search loop. -/

lemma buy_share_search_unfold (s : MarketEngineState) (outc : Outcome)
    (max_cost shares : Nat) :
    buy_share_search s outc max_cost shares =
      if max_cost < s.calculate_buy_cost outc shares then shares - 1
      else if 1000000 < shares then shares
      else buy_share_search s outc max_cost (shares + 1) := by
  rw [buy_share_search]

/-- The loop never settles above 1000001 when entered at or below it. -/
lemma buy_share_search_le (s : MarketEngineState) (outc : Outcome)
    (max_cost : Nat) :
    ∀ d shares, 1000001 - shares ≤ d → shares ≤ 1000001 →
      buy_share_search s outc max_cost shares ≤ 1000001 := by
  intro d
  induction d with
  | zero =>
      intro shares h1 h2
      have hs : shares = 1000001 := by omega
      subst hs
      rw [buy_share_search_unfold]
      split
      · omega
      · rw [if_pos (by omega)]
  | succ d ih =>
      intro shares h1 h2
      rw [buy_share_search_unfold]
      split
      · omega
      · split
        · omega
        · rename_i hcap
          exact ih (shares + 1) (by omega) (by omega)

/-- Full characterisation of the loop result: either the very first probed
count is unaffordable and the loop hands back its predecessor, or the result
is affordable, at least the entry count, at most 1000001, and is either the
cap overshoot value 1000001 or the last count before an unaffordable one. -/
lemma buy_share_search_spec (s : MarketEngineState) (outc : Outcome)
    (max_cost : Nat) :
    ∀ d shares, 1000001 - shares ≤ d → 1 ≤ shares → shares ≤ 1000001 →
      (buy_share_search s outc max_cost shares = shares - 1 ∧
        max_cost < s.calculate_buy_cost outc shares) ∨
      (shares ≤ buy_share_search s outc max_cost shares ∧
        buy_share_search s outc max_cost shares ≤ 1000001 ∧
        s.calculate_buy_cost outc (buy_share_search s outc max_cost shares)
          ≤ max_cost ∧
        (buy_share_search s outc max_cost shares = 1000001 ∨
          max_cost < s.calculate_buy_cost outc
            (buy_share_search s outc max_cost shares + 1))) := by
  intro d
  induction d with
  | zero =>
      intro shares h1 h2 h3
      have hs : shares = 1000001 := by omega
      subst hs
      have hu := buy_share_search_unfold s outc max_cost 1000001
      by_cases hcost : max_cost < s.calculate_buy_cost outc 1000001
      · rw [if_pos hcost] at hu
        exact Or.inl ⟨hu, hcost⟩
      · rw [if_neg hcost, if_pos (by omega)] at hu
        rw [hu]
        exact Or.inr ⟨le_refl _, le_refl _, by omega, Or.inl rfl⟩
  | succ d ih =>
      intro shares h1 h2 h3
      have hu := buy_share_search_unfold s outc max_cost shares
      by_cases hcost : max_cost < s.calculate_buy_cost outc shares
      · rw [if_pos hcost] at hu
        exact Or.inl ⟨hu, hcost⟩
      · by_cases hcap : 1000000 < shares
        · rw [if_neg hcost, if_pos hcap] at hu
          rw [hu]
          have hs : shares = 1000001 := by omega
          subst hs
          exact Or.inr ⟨le_refl _, le_refl _, by omega, Or.inl rfl⟩
        · rw [if_neg hcost, if_neg hcap] at hu
          rw [hu]
          have hrec := ih (shares + 1) (by omega) (by omega) (by omega)
          rcases hrec with ⟨he, hc⟩ | ⟨hge, hle, hc, hlast⟩
          · have he2 : buy_share_search s outc max_cost (shares + 1)
                = shares := by omega
            rw [he2]
            exact Or.inr ⟨le_refl _, by omega, by omega, Or.inr hc⟩
          · exact Or.inr ⟨by omega, hle, hc, hlast⟩

/-- Any quoted cost is a u64 value, hence at most u64 MAX. -/
lemma state_cost_le_u64max (s : MarketEngineState) (outc : Outcome) (n : Nat) :
    s.calculate_buy_cost outc n ≤ U64MAX := by
  cases outc
  · exact buy_cost_le_u64max _ _ _
  · exact buy_cost_le_u64max _ _ _

/-- If the one share quote is unaffordable the search gives zero. -/
lemma buy_share_search_zero (s : MarketEngineState) (outc : Outcome)
    (max_cost : Nat) (h : max_cost < s.calculate_buy_cost outc 1) :
    buy_share_search s outc max_cost 1 = 0 := by
  rw [buy_share_search_unfold, if_pos h]

/-- When the one share quote is affordable: the result is positive, its own
quote is affordable, and it is the cap overshoot 1000001 or the last count
before an unaffordable quote. -/
lemma buy_share_search_pos_spec (s : MarketEngineState) (outc : Outcome)
    (max_cost : Nat) (h : s.calculate_buy_cost outc 1 ≤ max_cost) :
    1 ≤ buy_share_search s outc max_cost 1 ∧
    buy_share_search s outc max_cost 1 ≤ 1000001 ∧
    s.calculate_buy_cost outc (buy_share_search s outc max_cost 1) ≤ max_cost ∧
    (buy_share_search s outc max_cost 1 = 1000001 ∨
      max_cost < s.calculate_buy_cost outc
        (buy_share_search s outc max_cost 1 + 1)) := by
  rcases buy_share_search_spec s outc max_cost 1000001 1 (by omega) (by omega)
      (by omega) with ⟨_, hc⟩ | hres
  · omega
  · exact hres

/-- When every count up to 1000001 is affordable the loop runs into the cap
and settles on 1000001. -/
lemma buy_share_search_cap (s : MarketEngineState) (outc : Outcome)
    (max_cost : Nat)
    (h : ∀ t, 1 ≤ t → t ≤ 1000001 → s.calculate_buy_cost outc t ≤ max_cost) :
    buy_share_search s outc max_cost 1 = 1000001 := by
  obtain ⟨h1, h2, h3, h4⟩ :=
    buy_share_search_pos_spec s outc max_cost (h 1 (by omega) (by omega))
  rcases h4 with h4 | h4
  · exact h4
  · by_cases hc : buy_share_search s outc max_cost 1 = 1000001
    · exact hc
    · have := h (buy_share_search s outc max_cost 1 + 1) (by omega) (by omega)
      omega

/-- With max_cost u64 MAX no quote is ever unaffordable, so every Buy with
that budget fills exactly 1000001 shares. -/
lemma buy_share_search_u64max (s : MarketEngineState) (outc : Outcome) :
    buy_share_search s outc U64MAX 1 = 1000001 :=
  buy_share_search_cap s outc U64MAX
    (fun t _ _ => state_cost_le_u64max s outc t)

/-! Reduction of execute_operation in the various gate and dispatch cases. -/

lemma execute_buy_open (s : MarketEngineState) (owner : String) (ts : Nat)
    (outc : Outcome) (max_cost : Nat) (hopen : s.resolution = none) :
    execute_operation s owner ts (Operation.Buy outc max_cost) =
      (if buy_share_search s outc max_cost 1 = 0 then Except.ok ("0", s)
       else Except.ok (Nat.repr (buy_share_search s outc max_cost 1),
         buyRecordedState s owner ts outc
           (buy_share_search s outc max_cost 1))) := by
  unfold execute_operation
  rw [hopen]
  rfl

lemma execute_sell_open (s : MarketEngineState) (owner : String) (ts : Nat)
    (outc : Outcome) (n : Nat) (hopen : s.resolution = none) :
    execute_operation s owner ts (Operation.Sell outc n) =
      (match s.sell owner outc n with
       | Except.error e => Except.error e
       | Except.ok pr =>
           Except.ok (Nat.repr pr.1,
             pr.2.get_next_trade_id.2.record_trade
               { trade_id := pr.2.get_next_trade_id.1, trader := owner,
                 outcome := outcomeName outc, shares := -(n : Int),
                 cost := pr.1, timestamp := ts })) := by
  obtain ⟨yp, np, tv, posm, res, nid, tr⟩ := s
  have h2 : res = none := hopen
  subst h2
  rfl

lemma execute_sell_error (s : MarketEngineState) (owner : String) (ts : Nat)
    (outc : Outcome) (n : Nat) (msg : String)
    (hopen : s.resolution = none)
    (he : s.sell owner outc n = Except.error msg) :
    execute_operation s owner ts (Operation.Sell outc n)
      = Except.error msg := by
  rw [execute_sell_open s owner ts outc n hopen, he]

lemma execute_resolve_open (s : MarketEngineState) (owner : String) (ts : Nat)
    (w : String) (hopen : s.resolution = none) :
    execute_operation s owner ts (Operation.Resolve w) =
      Except.ok ("Resolved",
        { s with resolution := some (
            { resolved_at := ts, winning_outcome := w, resolver := owner }) }) := by
  obtain ⟨yp, np, tv, posm, res, nid, tr⟩ := s
  have h2 : res = none := hopen
  subst h2
  rfl

lemma execute_gate_buy (s : MarketEngineState) (r : Resolution)
    (hres : s.resolution = some r) (owner : String) (ts : Nat)
    (outc : Outcome) (max_cost : Nat) :
    execute_operation s owner ts (Operation.Buy outc max_cost)
      = Except.error "Market is resolved, only claims allowed" := by
  obtain ⟨yp, np, tv, posm, res, nid, tr⟩ := s
  have h2 : res = some r := hres
  subst h2
  rfl

lemma execute_gate_sell (s : MarketEngineState) (r : Resolution)
    (hres : s.resolution = some r) (owner : String) (ts : Nat)
    (outc : Outcome) (n : Nat) :
    execute_operation s owner ts (Operation.Sell outc n)
      = Except.error "Market is resolved, only claims allowed" := by
  obtain ⟨yp, np, tv, posm, res, nid, tr⟩ := s
  have h2 : res = some r := hres
  subst h2
  rfl

lemma execute_gate_resolve (s : MarketEngineState) (r : Resolution)
    (hres : s.resolution = some r) (owner : String) (ts : Nat) (w : String) :
    execute_operation s owner ts (Operation.Resolve w)
      = Except.error "Market is resolved, only claims allowed" := by
  obtain ⟨yp, np, tv, posm, res, nid, tr⟩ := s
  have h2 : res = some r := hres
  subst h2
  rfl

lemma execute_claim_resolved (s : MarketEngineState) (r : Resolution)
    (hres : s.resolution = some r) (owner : String) (ts : Nat) :
    execute_operation s owner ts Operation.Claim =
      Except.ok (Nat.repr (
        if r.winning_outcome = "Yes" then
          ((s.positions owner).getD defaultPosition).yes_shares
        else if r.winning_outcome = "No" then
          ((s.positions owner).getD defaultPosition).no_shares
        else u64add ((s.positions owner).getD defaultPosition).yes_shares
          ((s.positions owner).getD defaultPosition).no_shares),
        removePos s owner) := by
  obtain ⟨yp, np, tv, posm, res, nid, tr⟩ := s
  have h2 : res = some r := hres
  subst h2
  rfl

/-! Pool projections of the state level buy. -/

lemma buy_state_yes (s : MarketEngineState) (owner : String) (n : Nat) :
    (s.buy owner Outcome.Yes n).2.yes_pool = s.yes_pool - n ∧
    (s.buy owner Outcome.Yes n).2.no_pool
      = u64add s.no_pool (buy_cost s.yes_pool s.no_pool n) ∧
    (s.buy owner Outcome.Yes n).2.resolution = s.resolution := by
  exact ⟨rfl, rfl, rfl⟩

lemma buy_state_no (s : MarketEngineState) (owner : String) (n : Nat) :
    (s.buy owner Outcome.No n).2.no_pool = s.no_pool - n ∧
    (s.buy owner Outcome.No n).2.yes_pool
      = u64add s.yes_pool (buy_cost s.no_pool s.yes_pool n) ∧
    (s.buy owner Outcome.No n).2.resolution = s.resolution := by
  exact ⟨rfl, rfl, rfl⟩

/-- The state level sell once the quote is known to be some value. -/
lemma sell_yes_eq {s : MarketEngineState} (owner : String) {n v : Nat}
    (hq : s.calculate_sell_proceeds Outcome.Yes n = some v) :
    s.sell owner Outcome.Yes n =
      (if (s.get_position owner).yes_shares < n
       then Except.error "Insufficient shares"
       else Except.ok (v,
         ({ s with yes_pool := u64add s.yes_pool n,
                   no_pool := s.no_pool - v }).update_position owner
           Outcome.Yes (-(i64_of_u64 n)) v)) := by
  unfold MarketEngineState.sell
  rw [hq]

/-- The state level sell once the quote is known to be some value. -/
lemma sell_no_eq {s : MarketEngineState} (owner : String) {n v : Nat}
    (hq : s.calculate_sell_proceeds Outcome.No n = some v) :
    s.sell owner Outcome.No n =
      (if (s.get_position owner).no_shares < n
       then Except.error "Insufficient shares"
       else Except.ok (v,
         ({ s with yes_pool := s.yes_pool - v,
                   no_pool := u64add s.no_pool n }).update_position owner
           Outcome.No (-(i64_of_u64 n)) v)) := by
  unfold MarketEngineState.sell
  rw [hq]

/-- C1 holds only in weakened form: on an open market with both pools
positive the pool product never increases across any successful buy
(unconditionally, first conjunct) nor across any successful sell; and when
the buy fills fewer shares than the traded pool holds, and for every sell,
the drop is exactly the remainder of the single floor division of the quote,
below the divisor.  A buy whose fill reaches the whole pool zeroes the
traded pool with no division performed (the quote takes the sentinel branch)
and the product collapses to zero, so the exact deficit clause holds only
below the pool; see the counterexample.  The bound on the initial product
says the market is one that a real market history can produce: the product
starts at the square of the initial liquidity and never grows, so it always
fits a u64 and the cast of the 128 bit quotient back to u64 truncates
nothing. -/
theorem c1_trade_product_never_increases (s : MarketEngineState)
    (owner : String) (outc : Outcome) (n : Nat) (hn : 0 < n)
    (hyes : 0 < s.yes_pool) (hno : 0 < s.no_pool)
    (hk : s.yes_pool * s.no_pool < U64MOD) :
    ((s.buy owner outc n).2.yes_pool * (s.buy owner outc n).2.no_pool
        ≤ s.yes_pool * s.no_pool) ∧
    (n < (tradedPools s outc).1 →
      s.yes_pool * s.no_pool
          - (s.buy owner outc n).2.yes_pool * (s.buy owner outc n).2.no_pool
        = s.yes_pool * s.no_pool % ((tradedPools s outc).1 - n) ∧
      s.yes_pool * s.no_pool % ((tradedPools s outc).1 - n)
        < (tradedPools s outc).1 - n) ∧
    ((tradedPools s outc).1 + n < U64MOD →
      ∀ pr s2, s.sell owner outc n = Except.ok (pr, s2) →
        s2.yes_pool * s2.no_pool ≤ s.yes_pool * s.no_pool ∧
        s.yes_pool * s.no_pool - s2.yes_pool * s2.no_pool
          = s.yes_pool * s.no_pool % ((tradedPools s outc).1 + n) ∧
        s.yes_pool * s.no_pool % ((tradedPools s outc).1 + n)
          < (tradedPools s outc).1 + n) := by
  cases outc with
  | Yes =>
      obtain ⟨e1, e2, _⟩ := buy_state_yes s owner n
      refine ⟨?_, ?_, ?_⟩
      · rw [e1, e2]
        exact buy_product_le hk
      · intro hlt
        simp only [tradedPools] at hlt ⊢
        rw [e1, e2]
        have hprod := buy_product hlt hk
        have hmodle : s.yes_pool * s.no_pool % (s.yes_pool - n)
            ≤ s.yes_pool * s.no_pool := Nat.mod_le _ _
        have hmodlt : s.yes_pool * s.no_pool % (s.yes_pool - n)
            < s.yes_pool - n := Nat.mod_lt _ (by omega)
        omega
      · intro hpn pr s2 hsell
        simp only [tradedPools] at hpn ⊢
        have hq : s.calculate_sell_proceeds Outcome.Yes n
            = some (s.no_pool - s.yes_pool * s.no_pool / (s.yes_pool + n)) :=
          (sell_spec hyes hk hpn).1
        rw [sell_yes_eq owner hq] at hsell
        split at hsell
        · exact absurd hsell (by simp)
        · simp only [Except.ok.injEq, Prod.mk.injEq] at hsell
          obtain ⟨hpr, hs2⟩ := hsell
          have e3 : s2.yes_pool = u64add s.yes_pool n := by rw [← hs2]; rfl
          have e4 : s2.no_pool = s.no_pool
              - (s.no_pool - s.yes_pool * s.no_pool / (s.yes_pool + n)) := by
            rw [← hs2]; rfl
          have hsub : s.no_pool
              - (s.no_pool - s.yes_pool * s.no_pool / (s.yes_pool + n))
              = s.yes_pool * s.no_pool / (s.yes_pool + n) :=
            Nat.sub_sub_self (sell_spec hyes hk hpn).2
          rw [e3, e4, hsub]
          have hprod := sell_product hyes hk hpn
          have hmodle : s.yes_pool * s.no_pool % (s.yes_pool + n)
              ≤ s.yes_pool * s.no_pool := Nat.mod_le _ _
          have hmodlt : s.yes_pool * s.no_pool % (s.yes_pool + n)
              < s.yes_pool + n := Nat.mod_lt _ (by omega)
          omega
  | No =>
      have hcomm : s.yes_pool * s.no_pool = s.no_pool * s.yes_pool :=
        Nat.mul_comm _ _
      have hk2 : s.no_pool * s.yes_pool < U64MOD := by omega
      obtain ⟨e1, e2, _⟩ := buy_state_no s owner n
      refine ⟨?_, ?_, ?_⟩
      · rw [e1, e2, hcomm]
        have hple := buy_product_le (n := n) hk2
        have hc2 : u64add s.yes_pool (buy_cost s.no_pool s.yes_pool n)
              * (s.no_pool - n)
            = (s.no_pool - n)
              * u64add s.yes_pool (buy_cost s.no_pool s.yes_pool n) :=
          Nat.mul_comm _ _
        omega
      · intro hlt
        simp only [tradedPools] at hlt ⊢
        rw [e1, e2, hcomm]
        have hprod := buy_product hlt hk2
        have hc2 : u64add s.yes_pool (buy_cost s.no_pool s.yes_pool n)
              * (s.no_pool - n)
            = (s.no_pool - n)
              * u64add s.yes_pool (buy_cost s.no_pool s.yes_pool n) :=
          Nat.mul_comm _ _
        have hmodle : s.no_pool * s.yes_pool % (s.no_pool - n)
            ≤ s.no_pool * s.yes_pool := Nat.mod_le _ _
        have hmodlt : s.no_pool * s.yes_pool % (s.no_pool - n)
            < s.no_pool - n := Nat.mod_lt _ (by omega)
        omega
      · intro hpn pr s2 hsell
        simp only [tradedPools] at hpn ⊢
        have hq : s.calculate_sell_proceeds Outcome.No n
            = some (s.yes_pool - s.no_pool * s.yes_pool / (s.no_pool + n)) :=
          (sell_spec hno hk2 hpn).1
        rw [sell_no_eq owner hq] at hsell
        split at hsell
        · exact absurd hsell (by simp)
        · simp only [Except.ok.injEq, Prod.mk.injEq] at hsell
          obtain ⟨hpr, hs2⟩ := hsell
          have e3 : s2.no_pool = u64add s.no_pool n := by rw [← hs2]; rfl
          have e4 : s2.yes_pool = s.yes_pool
              - (s.yes_pool - s.no_pool * s.yes_pool / (s.no_pool + n)) := by
            rw [← hs2]; rfl
          have hsub : s.yes_pool
              - (s.yes_pool - s.no_pool * s.yes_pool / (s.no_pool + n))
              = s.no_pool * s.yes_pool / (s.no_pool + n) :=
            Nat.sub_sub_self (sell_spec hno hk2 hpn).2
          rw [e3, e4, hsub, hcomm]
          have hprod := sell_product hno hk2 hpn
          have hc2 : s.no_pool * s.yes_pool / (s.no_pool + n)
                * u64add s.no_pool n
              = u64add s.no_pool n
                * (s.no_pool * s.yes_pool / (s.no_pool + n)) :=
            Nat.mul_comm _ _
          have hmodle : s.no_pool * s.yes_pool % (s.no_pool + n)
              ≤ s.no_pool * s.yes_pool := Nat.mod_le _ _
          have hmodlt : s.no_pool * s.yes_pool % (s.no_pool + n)
              < s.no_pool + n := Nat.mod_lt _ (by omega)
          omega

/-- Witness for C1 (amended) at the initial market: buying 1000 Yes shares
does not increase the pool product. -/
theorem c1_trade_product_never_increases_witness :
    0 < (1000 : Nat) ∧ 0 < initial_state.yes_pool ∧ 0 < initial_state.no_pool ∧
    initial_state.yes_pool * initial_state.no_pool < U64MOD ∧
    (initial_state.buy "t" Outcome.Yes 1000).2.yes_pool
        * (initial_state.buy "t" Outcome.Yes 1000).2.no_pool
      ≤ initial_state.yes_pool * initial_state.no_pool :=
  ⟨by decide, by decide, by decide, by decide,
    (c1_trade_product_never_increases initial_state "t" Outcome.Yes 1000
      (by decide) (by decide) (by decide) (by decide)).1⟩

/-- C4: once a resolution is stored, Buy, Sell and Resolve all fail (the
resolution gate panics, so nothing is mutated and in particular the stored
resolution is never replaced), and the only permitted operation, Claim,
succeeds but leaves the stored resolution intact. -/
theorem c4_resolution_terminal (s : MarketEngineState) (r : Resolution)
    (hres : s.resolution = some r) (owner : String) (ts : Nat) :
    (∀ outc max_cost, execute_operation s owner ts (Operation.Buy outc max_cost)
        = Except.error "Market is resolved, only claims allowed") ∧
    (∀ outc n, execute_operation s owner ts (Operation.Sell outc n)
        = Except.error "Market is resolved, only claims allowed") ∧
    (∀ w, execute_operation s owner ts (Operation.Resolve w)
        = Except.error "Market is resolved, only claims allowed") ∧
    (∀ resp s2, execute_operation s owner ts Operation.Claim
        = Except.ok (resp, s2) → s2.resolution = some r) := by
  refine ⟨fun outc mc => execute_gate_buy s r hres owner ts outc mc,
    fun outc n => execute_gate_sell s r hres owner ts outc n,
    fun w => execute_gate_resolve s r hres owner ts w, ?_⟩
  intro resp s2 hok
  rw [execute_claim_resolved s r hres owner ts] at hok
  simp only [Except.ok.injEq, Prod.mk.injEq] at hok
  rw [← hok.2]
  exact hres

/-- Witness for C4 on a concrete resolved market. -/
theorem c4_resolution_terminal_witness :
    sampleResolvedYes.resolution
        = some ({ resolved_at := 5, winning_outcome := "Yes",
                  resolver := "oracle" }) ∧
    execute_operation sampleResolvedYes "t" 9 (Operation.Resolve "No")
      = Except.error "Market is resolved, only claims allowed" :=
  ⟨rfl, (c4_resolution_terminal sampleResolvedYes
    { resolved_at := 5, winning_outcome := "Yes", resolver := "oracle" }
    rfl "t" 9).2.2.1 "No"⟩

/-- C5 holds only in weakened form: a Sell of more shares than the caller
holds fails at the state layer before any mutation, and the contract layer
turns the panic into an aborted operation (an aborted operation carries no
successor state, so pools, positions, total volume and the trade log are all
untouched); but the failure carries the insufficient shares error only when
the wrapping sum pool plus shares is not congruent to zero, because the
proceeds quote runs before the holding check and its division panics with a
divide by zero when the wrapped new pool is exactly zero. -/
theorem c5_sell_insufficient_no_mutation (s : MarketEngineState)
    (owner : String) (ts : Nat) (outc : Outcome) (n : Nat)
    (hopen : s.resolution = none)
    (hins : (match outc with
      | Outcome.Yes => (s.get_position owner).yes_shares
      | Outcome.No => (s.get_position owner).no_shares) < n)
    (hnz : ((tradedPools s outc).1 + n) % U64MOD ≠ 0) :
    s.sell owner outc n = Except.error "Insufficient shares" ∧
    execute_operation s owner ts (Operation.Sell outc n)
      = Except.error "Insufficient shares" := by
  have hsell : s.sell owner outc n = Except.error "Insufficient shares" := by
    cases outc with
    | Yes =>
        have hq : s.calculate_sell_proceeds Outcome.Yes n
            = some (s.no_pool - (s.yes_pool * s.no_pool
                / ((s.yes_pool + n) % U64MOD) % U64MOD)) := by
          simp only [tradedPools] at hnz
          show sell_proceeds s.yes_pool s.no_pool n = _
          simp only [sell_proceeds]
          rw [if_neg hnz]
        rw [sell_yes_eq owner hq, if_pos hins]
    | No =>
        have hq : s.calculate_sell_proceeds Outcome.No n
            = some (s.yes_pool - (s.no_pool * s.yes_pool
                / ((s.no_pool + n) % U64MOD) % U64MOD)) := by
          simp only [tradedPools] at hnz
          show sell_proceeds s.no_pool s.yes_pool n = _
          simp only [sell_proceeds]
          rw [if_neg hnz]
        rw [sell_no_eq owner hq, if_pos hins]
  exact ⟨hsell, execute_sell_error s owner ts outc n _ hopen hsell⟩

/-- Witness for C5 (amended): a fresh trader selling 5 Yes shares on the
initial market. -/
theorem c5_sell_insufficient_no_mutation_witness :
    initial_state.resolution = none ∧
    (initial_state.get_position "t").yes_shares < 5 ∧
    ((tradedPools initial_state Outcome.Yes).1 + 5) % U64MOD ≠ 0 ∧
    execute_operation initial_state "t" 0 (Operation.Sell Outcome.Yes 5)
      = Except.error "Insufficient shares" :=
  ⟨rfl, by decide, by decide,
    (c5_sell_insufficient_no_mutation initial_state "t" 0 Outcome.Yes 5
      rfl (by decide) (by decide)).2⟩

/-- Counterexample for C5 as stated: selling 2 to the 64 minus the pool
shares (far above the zero holding of a fresh trader, so the claim applies)
makes the wrapped new pool exactly zero, and the quote panics with a divide
by zero before the holding check ever runs, so the operation fails with the
divide by zero abort, not with the insufficient shares error the claim
names. -/
theorem c5_counterexample :
    (initial_state.get_position "t").yes_shares < 18446744073609551616 ∧
    initial_state.sell "t" Outcome.Yes 18446744073609551616
      = Except.error "attempt to divide by zero" ∧
    execute_operation initial_state "t" 0
        (Operation.Sell Outcome.Yes 18446744073609551616)
      = Except.error "attempt to divide by zero" := by
  have hq : initial_state.calculate_sell_proceeds Outcome.Yes
      18446744073609551616 = none := by decide
  have hsell : initial_state.sell "t" Outcome.Yes 18446744073609551616
      = Except.error "attempt to divide by zero" := by
    unfold MarketEngineState.sell
    rw [hq]
  exact ⟨by decide, hsell, execute_sell_error initial_state "t" 0 Outcome.Yes
    18446744073609551616 _ rfl hsell⟩

/-- C7 holds only in weakened form: with the pool product inside u64 range
(true of any market seeded from the initial liquidity, since the product
starts at 10 to the 16 and never grows) buy_cost is monotone in the share
count but only weakly so (consecutive counts can quote the same cost), and
sell_proceeds is weakly monotone as long as the wrapping sum pool plus
shares does not wrap (otherwise the quote can drop, or abort entirely);
whenever a sell quote exists it never exceeds the opposite pool. -/
theorem c7_pricing_monotone (pool other n m : Nat) (hp : 0 < pool)
    (ho : 0 < other) (hk : pool * other < U64MOD) (hnm : n ≤ m) :
    (m < pool → buy_cost pool other n ≤ buy_cost pool other m) ∧
    (pool + m < U64MOD →
      (sell_proceeds pool other n).getD 0
        ≤ (sell_proceeds pool other m).getD 0) ∧
    (sell_proceeds pool other m).getD 0 ≤ other :=
  ⟨fun hm => buy_cost_mono hk hnm hm,
   fun hm => sell_proceeds_mono hp hk hnm hm,
   sell_proceeds_le_other pool other m⟩

/-- Witness for C7 on concrete pools. -/
theorem c7_pricing_monotone_witness :
    0 < (100 : Nat) ∧ 0 < (100 : Nat) ∧ (100 : Nat) * 100 < U64MOD ∧
    (1 : Nat) ≤ 2 ∧
    (2 < 100 → buy_cost 100 100 1 ≤ buy_cost 100 100 2) ∧
    (sell_proceeds 100 100 2).getD 0 ≤ 100 :=
  ⟨by decide, by decide, by decide, by decide,
   (c7_pricing_monotone 100 100 1 2 (by decide) (by decide) (by decide)
      (by decide)).1,
   (c7_pricing_monotone 100 100 1 2 (by decide) (by decide) (by decide)
      (by decide)).2.2⟩

/-- Counterexample for C7 as stated.  With pools (50, 2) the quotes for one
and for two shares are both zero, so buy_cost is not strictly increasing on
0 < n < pool even with positive pools; with pools (2, 3) the proceeds for
two and for three shares coincide, so sell_proceeds is not strictly
increasing either; at pools (3, 2 to the 63) even weak monotonicity of
buy_cost fails, because the downcast of the 128 bit quotient to u64 wraps;
and at pools (2 to the 63 plus 5, 1), whose product fits a u64, the wrapping
sum pool plus shares makes the proceeds drop from one to zero as the count
grows, so sell monotonicity needs the no wrap side condition of the amended
statement. -/
theorem c7_counterexample :
    0 < (50 : Nat) ∧ 0 < (2 : Nat) ∧ 0 < (1 : Nat) ∧ (1 : Nat) < 2 ∧
    (2 : Nat) < 50 ∧ ¬(buy_cost 50 2 1 < buy_cost 50 2 2) ∧
    ¬((sell_proceeds 2 3 2).getD 0 < (sell_proceeds 2 3 3).getD 0) ∧
    ¬(buy_cost 3 9223372036854775808 1 ≤ buy_cost 3 9223372036854775808 2) ∧
    (9223372036854775813 : Nat) * 1 < U64MOD ∧
    (1 : Nat) ≤ 9223372036854775812 ∧
    sell_proceeds 9223372036854775813 1 1 = some 1 ∧
    sell_proceeds 9223372036854775813 1 9223372036854775812 = some 0 := by
  decide

/-! Facts about removePos shared by the claim theorems. -/

lemma removePos_self (s : MarketEngineState) (owner : String) :
    (removePos s owner).positions owner = none := by
  simp [removePos]

lemma removePos_other (s : MarketEngineState) (owner k : String)
    (hk : k ≠ owner) : (removePos s owner).positions k = s.positions k := by
  simp [removePos, hk]

lemma removePos_idem (s : MarketEngineState) (owner : String) :
    removePos (removePos s owner) owner = removePos s owner := by
  have hf : (fun k => if k = owner then none
        else (removePos s owner).positions k)
      = (removePos s owner).positions := by
    funext k
    by_cases hk : k = owner
    · subst hk
      simp [removePos]
    · simp [removePos, hk]
  calc removePos (removePos s owner) owner
      = { removePos s owner with positions := fun k =>
            if k = owner then none else (removePos s owner).positions k } := rfl
    _ = { removePos s owner with
            positions := (removePos s owner).positions } := by rw [hf]
    _ = removePos s owner := rfl

/-- C3: with a resolution stored, Claim pays the yes holding on Yes, the no
holding on No, and the sum of both holdings on anything else (Invalid in
particular); it removes the whole position of the caller whatever side won,
touches no other key and no register, and a second Claim by the same caller
returns 0 and leaves the state exactly as it was. -/
theorem c3_claim_payout_and_idempotence (s : MarketEngineState)
    (r : Resolution) (hres : s.resolution = some r) (owner : String)
    (ts ts2 : Nat) (pos : Position) (hpos : s.positions owner = some pos)
    (hy : pos.yes_shares < 9223372036854775808)
    (hn : pos.no_shares < 9223372036854775808) :
    (r.winning_outcome = "Yes" →
      execute_operation s owner ts Operation.Claim
        = Except.ok (Nat.repr pos.yes_shares, removePos s owner)) ∧
    (r.winning_outcome = "No" →
      execute_operation s owner ts Operation.Claim
        = Except.ok (Nat.repr pos.no_shares, removePos s owner)) ∧
    (r.winning_outcome ≠ "Yes" → r.winning_outcome ≠ "No" →
      execute_operation s owner ts Operation.Claim
        = Except.ok (Nat.repr (pos.yes_shares + pos.no_shares),
            removePos s owner)) ∧
    (removePos s owner).positions owner = none ∧
    (∀ k, k ≠ owner → (removePos s owner).positions k = s.positions k) ∧
    (removePos s owner).yes_pool = s.yes_pool ∧
    (removePos s owner).no_pool = s.no_pool ∧
    (removePos s owner).total_volume = s.total_volume ∧
    (removePos s owner).resolution = s.resolution ∧
    (removePos s owner).trades = s.trades ∧
    execute_operation (removePos s owner) owner ts2 Operation.Claim
      = Except.ok ("0", removePos s owner) := by
  have hbase := execute_claim_resolved s r hres owner ts
  rw [hpos] at hbase
  simp only [Option.getD_some] at hbase
  refine ⟨?_, ?_, ?_, removePos_self s owner, fun k hk => removePos_other s owner k hk,
    rfl, rfl, rfl, rfl, rfl, ?_⟩
  · intro hw
    rw [hbase, hw, if_pos rfl]
  · intro hw
    rw [hbase, hw, if_neg (by decide), if_pos rfl]
  · intro hw1 hw2
    rw [hbase, if_neg hw1, if_neg hw2,
      u64add_eq_of_lt (by
        have hU : U64MOD = 18446744073709551616 := rfl
        omega)]
  · have hres2 : (removePos s owner).resolution = some r := hres
    have hclaim := execute_claim_resolved (removePos s owner) r hres2 owner ts2
    rw [removePos_self s owner] at hclaim
    simp only [Option.getD_none] at hclaim
    rw [hclaim, removePos_idem]
    have hpay : (if r.winning_outcome = "Yes" then defaultPosition.yes_shares
        else if r.winning_outcome = "No" then defaultPosition.no_shares
        else u64add defaultPosition.yes_shares defaultPosition.no_shares)
        = 0 := by
      simp [defaultPosition, u64add]
    rw [hpay]
    rfl

/-- Witness for C3 on a concrete resolved market (resolution Yes, alice
holding 500 yes shares and 200 no shares, payed out exactly 500). -/
theorem c3_claim_payout_and_idempotence_witness :
    execute_operation sampleResolvedYes "alice" 7 Operation.Claim
      = Except.ok ("500", removePos sampleResolvedYes "alice") ∧
    execute_operation (removePos sampleResolvedYes "alice") "alice" 8
        Operation.Claim
      = Except.ok ("0", removePos sampleResolvedYes "alice") :=
  ⟨(c3_claim_payout_and_idempotence sampleResolvedYes
      { resolved_at := 5, winning_outcome := "Yes", resolver := "oracle" }
      rfl "alice" 7 8
      { owner := "alice", yes_shares := 500, no_shares := 200,
        total_invested := 0 } rfl (by decide) (by decide)).1 rfl,
   (c3_claim_payout_and_idempotence sampleResolvedYes
      { resolved_at := 5, winning_outcome := "Yes", resolver := "oracle" }
      rfl "alice" 7 8
      { owner := "alice", yes_shares := 500, no_shares := 200,
        total_invested := 0 } rfl (by decide) (by decide)).2.2.2.2.2.2.2.2.2.2⟩

/-- C10: Resolve stores the caller supplied winning_outcome string verbatim,
with no validation against Yes, No or Invalid, and Claim refunds both sides
(yes plus no holdings) for every stored string other than exactly Yes or
exactly No, not only for the string Invalid. -/
theorem c10_resolve_unvalidated_claim_refunds (s : MarketEngineState)
    (owner claimer : String) (ts ts2 : Nat) (w : String)
    (hopen : s.resolution = none) (pos : Position)
    (hpos : s.positions claimer = some pos)
    (hy : pos.yes_shares < 9223372036854775808)
    (hn : pos.no_shares < 9223372036854775808) :
    execute_operation s owner ts (Operation.Resolve w)
      = Except.ok ("Resolved",
          { s with resolution := some (
              { resolved_at := ts, winning_outcome := w,
                resolver := owner }) }) ∧
    (w ≠ "Yes" → w ≠ "No" →
      execute_operation
          { s with resolution := some (
              { resolved_at := ts, winning_outcome := w, resolver := owner }) }
          claimer ts2 Operation.Claim
        = Except.ok (Nat.repr (pos.yes_shares + pos.no_shares),
            removePos { s with resolution := some (
                { resolved_at := ts, winning_outcome := w,
                  resolver := owner }) } claimer)) := by
  refine ⟨execute_resolve_open s owner ts w hopen, ?_⟩
  intro hw1 hw2
  have hclaim := execute_claim_resolved
    { s with resolution := some (
        { resolved_at := ts, winning_outcome := w, resolver := owner }) }
    { resolved_at := ts, winning_outcome := w, resolver := owner }
    rfl claimer ts2
  have hpos1 : ({ s with resolution := some (
      { resolved_at := ts, winning_outcome := w,
        resolver := owner }) } : MarketEngineState).positions claimer
      = some pos := hpos
  rw [hpos1] at hclaim
  simp only [Option.getD_some] at hclaim
  rw [hclaim, if_neg (fun h => hw1 h), if_neg (fun h => hw2 h),
    u64add_eq_of_lt (by
      have hU : U64MOD = 18446744073709551616 := rfl
      omega)]

/-- Witness for C10: resolving to the string Banana and claiming refunds
both sides, 300 plus 400. -/
theorem c10_resolve_unvalidated_claim_refunds_witness :
    responseOf (execute_operation
      { sampleOpenPositions with resolution := some (
          { resolved_at := 0, winning_outcome := "Banana",
            resolver := "oracle" }) } "alice" 1 Operation.Claim) = "700" := by
  rw [(c10_resolve_unvalidated_claim_refunds sampleOpenPositions "oracle"
      "alice" 0 1 "Banana" rfl
      { owner := "alice", yes_shares := 300, no_shares := 400,
        total_invested := 0 } rfl (by decide) (by decide)).2
    (by decide) (by decide)]
  rfl

/-- C6: on an open market, when even one share is unaffordable the Buy
answers 0 and leaves the state untouched; otherwise it fills the count the
upward search from 1 settles on (an affordable count that is either the last
one before an unaffordable one or the cap overshoot 1000001), and the charge
applied by the state level buy is exactly the quote of that count at the
pre trade pools, which the search has checked against max_cost. -/
theorem c6_buy_fill_and_charge (s : MarketEngineState) (owner : String)
    (ts : Nat) (outc : Outcome) (max_cost : Nat)
    (hopen : s.resolution = none) :
    (max_cost < s.calculate_buy_cost outc 1 →
      buy_share_search s outc max_cost 1 = 0 ∧
      execute_operation s owner ts (Operation.Buy outc max_cost)
        = Except.ok ("0", s)) ∧
    (s.calculate_buy_cost outc 1 ≤ max_cost →
      1 ≤ buy_share_search s outc max_cost 1 ∧
      s.calculate_buy_cost outc (buy_share_search s outc max_cost 1)
        ≤ max_cost ∧
      (buy_share_search s outc max_cost 1 = 1000001 ∨
        max_cost < s.calculate_buy_cost outc
          (buy_share_search s outc max_cost 1 + 1)) ∧
      (s.buy owner outc (buy_share_search s outc max_cost 1)).1
        = s.calculate_buy_cost outc (buy_share_search s outc max_cost 1) ∧
      execute_operation s owner ts (Operation.Buy outc max_cost)
        = Except.ok (Nat.repr (buy_share_search s outc max_cost 1),
            buyRecordedState s owner ts outc
              (buy_share_search s outc max_cost 1))) := by
  constructor
  · intro h
    have hz := buy_share_search_zero s outc max_cost h
    refine ⟨hz, ?_⟩
    rw [execute_buy_open s owner ts outc max_cost hopen, hz, if_pos rfl]
  · intro h
    obtain ⟨h1, h2, h3, h4⟩ := buy_share_search_pos_spec s outc max_cost h
    refine ⟨h1, h3, h4, rfl, ?_⟩
    rw [execute_buy_open s owner ts outc max_cost hopen,
      if_neg (by omega)]

/-- Witness for C6 on the initial market with budget 1000. -/
theorem c6_buy_fill_and_charge_witness :
    initial_state.calculate_buy_cost Outcome.Yes 1 ≤ 1000 ∧
    initial_state.calculate_buy_cost Outcome.Yes
      (buy_share_search initial_state Outcome.Yes 1000 1) ≤ 1000 :=
  ⟨by decide,
   ((c6_buy_fill_and_charge initial_state "t" 0 Outcome.Yes 1000 rfl).2
     (by decide)).2.1⟩

/-- C8 holds only in weakened form: the affordability search always
terminates (it is a function in this model, defined by well founded recursion
on the distance to the cap) and its result never exceeds 1000001; but the cap
is an overshoot value: the loop checks the cap only after checking the cost
of the current count, so it can settle on 1000001, one more than the stated
safety cap of 1000000. -/
theorem c8_search_terminates_bounded (s : MarketEngineState) (outc : Outcome)
    (max_cost : Nat) : buy_share_search s outc max_cost 1 ≤ 1000001 :=
  buy_share_search_le s outc max_cost 1000000 1 (by omega) (by omega)

/-- Counterexample for C8 as stated: with the initial pools and budget
2000000 every count up to 1000001 is affordable, so the loop runs into the
cap check, which fires only after the increment, and the Buy fills 1000001
shares, exceeding the stated cap of 1000000. -/
theorem c8_counterexample :
    1000000 < buy_share_search initial_state Outcome.Yes 2000000 1 ∧
    responseOf (execute_operation initial_state "t" 0
      (Operation.Buy Outcome.Yes 2000000)) = "1000001" := by
  have hall : ∀ t, 1 ≤ t → t ≤ 1000001 →
      initial_state.calculate_buy_cost Outcome.Yes t ≤ 2000000 := by
    intro t h1 h2
    have hmono : initial_state.calculate_buy_cost Outcome.Yes t
        ≤ initial_state.calculate_buy_cost Outcome.Yes 1000001 := by
      show buy_cost 100000000 100000000 t
        ≤ buy_cost 100000000 100000000 1000001
      exact buy_cost_mono (by decide) h2 (by decide)
    have hval : initial_state.calculate_buy_cost Outcome.Yes 1000001
        ≤ 2000000 := by decide
    omega
  have hcap := buy_share_search_cap initial_state Outcome.Yes 2000000 hall
  constructor
  · omega
  · rw [execute_buy_open initial_state "t" 0 Outcome.Yes 2000000 rfl, hcap]
    rfl

/-- Buying n and then selling n against the post buy pools: any proceeds the
sell quote produces exceed the cost of the buy by at most one unit.  Both
quotes floor their division, and both floors hand the remainder to the
trader, but the two remainders together amount to at most one unit. -/
lemma roundtrip_pair {p o n : Nat} (hn : 0 < n) (hlt : n < p) (ho : 0 < o)
    (hk : p * o < U64MOD) :
    ∀ v, sell_proceeds (p - n) (p * o / (p - n)) n = some v →
      v ≤ buy_cost p o n + 1 := by
  intro v hv
  obtain ⟨hce, hcle⟩ := buy_cost_spec hlt hk
  have hp1 : 0 < p - n := by omega
  have hdm := Nat.div_add_mod (p * o) (p - n)
  have hmlt : (p * o) % (p - n) < p - n := Nat.mod_lt _ hp1
  have hk1 : (p - n) * (p * o / (p - n)) < U64MOD := by omega
  have hplt : p < U64MOD := by
    have h1 : p * 1 ≤ p * o := Nat.mul_le_mul_left p ho
    have h2 : p * 1 = p := Nat.mul_one p
    omega
  have hs := sell_spec hp1 hk1 (show p - n + n < U64MOD by omega)
  have hpn : p - n + n = p := by omega
  rw [hpn] at hs
  rw [hs.1] at hv
  simp only [Option.some.injEq] at hv
  have hq : o - 1 ≤ (p - n) * (p * o / (p - n)) / p := by
    refine (Nat.le_div_iff_mul_le (by omega)).mpr ?_
    have hexp : (o - 1) * p = o * p - p := Nat.sub_one_mul o p
    have hco : o * p = p * o := Nat.mul_comm o p
    omega
  rw [← hv, hce]
  omega

/-- The wrapping i64 accumulation is plain addition while the result stays
inside the i64 range. -/
lemma i64wrap_toNat_of_lt {a n : Nat} (hn : n < 9223372036854775808)
    (h : a + n < 9223372036854775808) :
    (i64wrap ((a : Int) + i64_of_u64 n)).toNat = a + n := by
  rw [i64_of_u64, if_pos hn]
  unfold i64wrap
  omega

/-- C2 holds only with the opposite sign and within i64 range: buying n
shares and immediately selling the same n shares of the same outcome
succeeds whenever the stored holding plus n stays inside the i64 range (the
i64 accumulation of update_position wraps beyond it), and the proceeds are
at most the buy cost plus one unit; but the proceeds CAN exceed the cost:
the floor divisions round in favour of the trader, not of the pool. -/
theorem c2_roundtrip_bounded (s : MarketEngineState) (owner : String)
    (outc : Outcome) (n : Nat) (hn : 0 < n)
    (hn63 : n < 9223372036854775808)
    (hhold : (match outc with
      | Outcome.Yes => (s.get_position owner).yes_shares
      | Outcome.No => (s.get_position owner).no_shares) + n
        < 9223372036854775808)
    (hlt : n < (tradedPools s outc).1) (ho : 0 < (tradedPools s outc).2)
    (hk : s.yes_pool * s.no_pool < U64MOD) :
    (∀ msg, (s.buy owner outc n).2.sell owner outc n ≠ Except.error msg) ∧
    (∀ pr s2, (s.buy owner outc n).2.sell owner outc n = Except.ok (pr, s2) →
      pr ≤ (s.buy owner outc n).1 + 1) := by
  cases outc with
  | Yes =>
      simp only [tradedPools] at hlt ho
      have hhold2 : (s.get_position owner).yes_shares + n
          < 9223372036854775808 := hhold
      obtain ⟨hby, hbn, _⟩ := buy_state_yes s owner n
      have h1 : ((s.buy owner Outcome.Yes n).2.get_position owner).yes_shares
          = (i64wrap (((s.get_position owner).yes_shares : Int)
              + i64_of_u64 n)).toNat := by
        simp only [MarketEngineState.buy, MarketEngineState.update_position,
          MarketEngineState.get_position]
        simp
      have h2 : ((s.buy owner Outcome.Yes n).2.get_position owner).yes_shares
          = (s.get_position owner).yes_shares + n := by
        rw [h1]
        exact i64wrap_toNat_of_lt hn63 hhold2
      have hguard : ¬(((s.buy owner Outcome.Yes n).2.get_position
          owner).yes_shares < n) := by omega
      have ho1 : u64add s.no_pool (buy_cost s.yes_pool s.no_pool n)
          = s.yes_pool * s.no_pool / (s.yes_pool - n) := by
        obtain ⟨hce, hcle⟩ := buy_cost_spec hlt hk
        have hdlt : s.yes_pool * s.no_pool / (s.yes_pool - n) < U64MOD :=
          lt_of_le_of_lt (Nat.div_le_self _ _) hk
        rw [u64add_eq_of_lt (by omega)]
        omega
      have hp1 : 0 < s.yes_pool - n := by omega
      have hk1 : (s.yes_pool - n)
          * (s.yes_pool * s.no_pool / (s.yes_pool - n)) < U64MOD := by
        have hc : (s.yes_pool - n)
              * (s.yes_pool * s.no_pool / (s.yes_pool - n))
            = s.yes_pool * s.no_pool / (s.yes_pool - n) * (s.yes_pool - n) :=
          Nat.mul_comm _ _
        have hml := Nat.div_mul_le_self (s.yes_pool * s.no_pool)
          (s.yes_pool - n)
        omega
      have hpn1 : s.yes_pool - n + n < U64MOD := by
        have h1 : s.yes_pool * 1 ≤ s.yes_pool * s.no_pool :=
          Nat.mul_le_mul_left _ ho
        have h2 : s.yes_pool * 1 = s.yes_pool := Nat.mul_one _
        omega
      have hq : (s.buy owner Outcome.Yes n).2.calculate_sell_proceeds
          Outcome.Yes n
          = some (s.yes_pool * s.no_pool / (s.yes_pool - n)
              - (s.yes_pool - n)
                * (s.yes_pool * s.no_pool / (s.yes_pool - n))
                / (s.yes_pool - n + n)) := by
        show sell_proceeds (s.buy owner Outcome.Yes n).2.yes_pool
          (s.buy owner Outcome.Yes n).2.no_pool n = _
        rw [hby, hbn, ho1]
        exact (sell_spec hp1 hk1 hpn1).1
      constructor
      · intro msg hcontra
        rw [sell_yes_eq owner hq, if_neg hguard] at hcontra
        exact absurd hcontra (by simp)
      · intro pr s2 hok
        rw [sell_yes_eq owner hq, if_neg hguard] at hok
        simp only [Except.ok.injEq, Prod.mk.injEq] at hok
        have hcost : (s.buy owner Outcome.Yes n).1
            = buy_cost s.yes_pool s.no_pool n := rfl
        rw [hcost]
        refine roundtrip_pair hn hlt ho hk pr ?_
        rw [(sell_spec hp1 hk1 hpn1).1, hok.1]
  | No =>
      simp only [tradedPools] at hlt ho
      have hk2 : s.no_pool * s.yes_pool < U64MOD := by
        have := Nat.mul_comm s.yes_pool s.no_pool
        omega
      have hhold2 : (s.get_position owner).no_shares + n
          < 9223372036854775808 := hhold
      obtain ⟨hbn, hby, _⟩ := buy_state_no s owner n
      have h1 : ((s.buy owner Outcome.No n).2.get_position owner).no_shares
          = (i64wrap (((s.get_position owner).no_shares : Int)
              + i64_of_u64 n)).toNat := by
        simp only [MarketEngineState.buy, MarketEngineState.update_position,
          MarketEngineState.get_position]
        simp
      have h2 : ((s.buy owner Outcome.No n).2.get_position owner).no_shares
          = (s.get_position owner).no_shares + n := by
        rw [h1]
        exact i64wrap_toNat_of_lt hn63 hhold2
      have hguard : ¬(((s.buy owner Outcome.No n).2.get_position
          owner).no_shares < n) := by omega
      have ho1 : u64add s.yes_pool (buy_cost s.no_pool s.yes_pool n)
          = s.no_pool * s.yes_pool / (s.no_pool - n) := by
        obtain ⟨hce, hcle⟩ := buy_cost_spec hlt hk2
        have hdlt : s.no_pool * s.yes_pool / (s.no_pool - n) < U64MOD :=
          lt_of_le_of_lt (Nat.div_le_self _ _) hk2
        rw [u64add_eq_of_lt (by omega)]
        omega
      have hp1 : 0 < s.no_pool - n := by omega
      have hk1 : (s.no_pool - n)
          * (s.no_pool * s.yes_pool / (s.no_pool - n)) < U64MOD := by
        have hc : (s.no_pool - n)
              * (s.no_pool * s.yes_pool / (s.no_pool - n))
            = s.no_pool * s.yes_pool / (s.no_pool - n) * (s.no_pool - n) :=
          Nat.mul_comm _ _
        have hml := Nat.div_mul_le_self (s.no_pool * s.yes_pool)
          (s.no_pool - n)
        omega
      have hpn1 : s.no_pool - n + n < U64MOD := by
        have h1 : s.no_pool * 1 ≤ s.no_pool * s.yes_pool :=
          Nat.mul_le_mul_left _ ho
        have h2 : s.no_pool * 1 = s.no_pool := Nat.mul_one _
        omega
      have hq : (s.buy owner Outcome.No n).2.calculate_sell_proceeds
          Outcome.No n
          = some (s.no_pool * s.yes_pool / (s.no_pool - n)
              - (s.no_pool - n)
                * (s.no_pool * s.yes_pool / (s.no_pool - n))
                / (s.no_pool - n + n)) := by
        show sell_proceeds (s.buy owner Outcome.No n).2.no_pool
          (s.buy owner Outcome.No n).2.yes_pool n = _
        rw [hbn, hby, ho1]
        exact (sell_spec hp1 hk1 hpn1).1
      constructor
      · intro msg hcontra
        rw [sell_no_eq owner hq, if_neg hguard] at hcontra
        exact absurd hcontra (by simp)
      · intro pr s2 hok
        rw [sell_no_eq owner hq, if_neg hguard] at hok
        simp only [Except.ok.injEq, Prod.mk.injEq] at hok
        have hcost : (s.buy owner Outcome.No n).1
            = buy_cost s.no_pool s.yes_pool n := rfl
        rw [hcost]
        refine roundtrip_pair hn hlt ho hk2 pr ?_
        rw [(sell_spec hp1 hk1 hpn1).1, hok.1]

/-- Witness for C2 (amended) on the initial market: the round trip sell of
10 Yes shares does not abort. -/
theorem c2_roundtrip_bounded_witness :
    (initial_state.buy "t" Outcome.Yes 10).2.sell "t" Outcome.Yes 10
      ≠ Except.error "Insufficient shares" :=
  (c2_roundtrip_bounded initial_state "t" Outcome.Yes 10 (by decide)
    (by decide) (by decide) (by decide) (by decide) (by decide)).1
    "Insufficient shares"

/-- Counterexample for C2 as stated: on the initial market buying 10 Yes
shares costs 10, and immediately selling those same 10 shares pays 11, one
more than the cost, so the proceeds exceed the original cost. -/
theorem c2_counterexample :
    (initial_state.buy "t" Outcome.Yes 10).1 = 10 ∧
    proceedsOf ((initial_state.buy "t" Outcome.Yes 10).2.sell "t"
      Outcome.Yes 10) = 11 := by
  decide

/-! The trace that zeroes a pool: repeated Buy operations with the budget
u64 MAX.  Such a budget makes every quote affordable, the sentinel cost
u64 MAX included, so the affordability loop always runs into its cap and each
call fills 1000001 shares regardless of the pool size. -/

lemma buyRecordedState_resolution (s : MarketEngineState) (owner : String)
    (ts : Nat) (outc : Outcome) (n : Nat) :
    (buyRecordedState s owner ts outc n).resolution = s.resolution := by
  cases outc
  · rfl
  · rfl

lemma buyMaxStep_resolution (s : MarketEngineState) :
    (buyMaxStep s).resolution = s.resolution :=
  buyRecordedState_resolution s "t" 0 Outcome.Yes 1000001

lemma buyMaxStep_yes (s : MarketEngineState) :
    (buyMaxStep s).yes_pool = s.yes_pool - 1000001 := rfl

lemma exec_buy_u64max (s : MarketEngineState) (h : s.resolution = none) :
    execute_operation s "t" 0 (Operation.Buy Outcome.Yes U64MAX)
      = Except.ok (Nat.repr 1000001, buyMaxStep s) := by
  rw [execute_buy_open s "t" 0 Outcome.Yes U64MAX h,
    buy_share_search_u64max s Outcome.Yes, if_neg (by decide)]
  rfl

lemma iterBuyMax_succ (k : Nat) (s : MarketEngineState) :
    iterBuyMax (k + 1) s = buyMaxStep (iterBuyMax k s) := rfl

lemma iterBuyMax_reachable_open : ∀ k s, Reachable s → s.resolution = none →
    Reachable (iterBuyMax k s) ∧ (iterBuyMax k s).resolution = none := by
  intro k
  induction k with
  | zero => exact fun s hr hn => ⟨hr, hn⟩
  | succ k ih =>
      intro s hr hn
      obtain ⟨hrk, hnk⟩ := ih s hr hn
      have hstep := exec_buy_u64max (iterBuyMax k s) hnk
      have hr2 : Reachable (buyMaxStep (iterBuyMax k s)) :=
        Reachable.step (iterBuyMax k s) "t" 0
          (Operation.Buy Outcome.Yes U64MAX) (Nat.repr 1000001)
          (buyMaxStep (iterBuyMax k s)) hrk hstep
      have hn2 : (buyMaxStep (iterBuyMax k s)).resolution = none := by
        rw [buyMaxStep_resolution]
        exact hnk
      rw [iterBuyMax_succ]
      exact ⟨hr2, hn2⟩

lemma iterBuyMax_yes : ∀ k s,
    (iterBuyMax k s).yes_pool = s.yes_pool - 1000001 * k := by
  intro k
  induction k with
  | zero =>
      intro s
      show s.yes_pool = s.yes_pool - 1000001 * 0
      omega
  | succ k ih =>
      intro s
      rw [iterBuyMax_succ, buyMaxStep_yes, ih s]
      have h2 : 1000001 * (k + 1) = 1000001 * k + 1000001 := by ring
      omega

/-- Counterexample for C1 as stated.  The state after 99 Buy operations with
budget u64 MAX is reachable from initialization, open, and has both pools
positive (yes pool 999901); one more such Buy is accepted and fills 1000001
shares, more than the whole yes pool.  Its quote is the sentinel u64 MAX,
produced with no division at all (the saturated new pool is zero), and the
saturating pool update zeroes the yes pool, so the pool product collapses
from a positive k to 0: the drop is k itself, not the truncation error of
any floor division, refuting the claim for this successful buy on an open
market with both pools positive. -/
theorem c1_counterexample :
    Reachable (iterBuyMax 99 initial_state) ∧
    (iterBuyMax 99 initial_state).resolution = none ∧
    0 < (iterBuyMax 99 initial_state).yes_pool ∧
    0 < (iterBuyMax 99 initial_state).no_pool ∧
    0 < (iterBuyMax 99 initial_state).yes_pool
        * (iterBuyMax 99 initial_state).no_pool ∧
    execute_operation (iterBuyMax 99 initial_state) "t" 0
        (Operation.Buy Outcome.Yes U64MAX)
      = Except.ok (Nat.repr 1000001,
          buyMaxStep (iterBuyMax 99 initial_state)) ∧
    (iterBuyMax 99 initial_state).yes_pool - 1000001 = 0 ∧
    (iterBuyMax 99 initial_state).calculate_buy_cost Outcome.Yes 1000001
      = U64MAX ∧
    (buyMaxStep (iterBuyMax 99 initial_state)).yes_pool
        * (buyMaxStep (iterBuyMax 99 initial_state)).no_pool = 0 := by
  obtain ⟨hr, hn⟩ :=
    iterBuyMax_reachable_open 99 initial_state Reachable.init rfl
  have hyes : (iterBuyMax 99 initial_state).yes_pool = 999901 := by
    rw [iterBuyMax_yes 99 initial_state]
    decide
  have hno : 0 < (iterBuyMax 99 initial_state).no_pool := by decide
  have hcost : (iterBuyMax 99 initial_state).calculate_buy_cost Outcome.Yes
      1000001 = U64MAX := by
    show buy_cost (iterBuyMax 99 initial_state).yes_pool
      (iterBuyMax 99 initial_state).no_pool 1000001 = U64MAX
    rw [hyes]
    simp only [buy_cost]
    rw [if_pos (by decide)]
  have hzero : (buyMaxStep (iterBuyMax 99 initial_state)).yes_pool = 0 := by
    rw [buyMaxStep_yes, hyes]
  refine ⟨hr, hn, by omega, hno, Nat.mul_pos (by omega) hno,
    exec_buy_u64max (iterBuyMax 99 initial_state) hn, by omega, hcost, ?_⟩
  rw [hzero, Nat.zero_mul]

/-- C9 fails on the code: the state after one hundred Buy operations of
outcome Yes with max_cost u64 MAX is reachable from initialization with no
resolution ever stored, all one hundred operations succeed, and the resulting
yes pool is exactly zero.  The intended rejection (the sentinel cost u64 MAX
for a pool emptying buy) is ineffective because the loop compares the quote
against max_cost, and with max_cost itself u64 MAX the comparison never
fires, so the buy executes and the saturating subtraction zeroes the pool. -/
theorem c9_reachable_zero_pool :
    Reachable (iterBuyMax 100 initial_state) ∧
    (iterBuyMax 100 initial_state).resolution = none ∧
    (iterBuyMax 100 initial_state).yes_pool = 0 := by
  obtain ⟨hr, hn⟩ :=
    iterBuyMax_reachable_open 100 initial_state Reachable.init rfl
  refine ⟨hr, hn, ?_⟩
  rw [iterBuyMax_yes 100 initial_state]
  decide

end MarketEngine
